import Mathlib

/-!
Verification of the tinystore S3-compatible object store against its
natural-language specification.  The definitions below are a shallow
embedding of the Rust sources:

* crates/storage/src/memory.rs   (in-memory storage backend)
* crates/storage/src/filesystem.rs (filesystem backend; file-operation order)
* crates/auth/src/signature_v4.rs (AWS Signature Version 4)

Machine integers are modelled as Nat with explicit reduction mod 2^32 where
the Rust code relies on wrapping 32-bit arithmetic (inside MD5 / SHA-256).
Fallible operations return Except; stateful operations take and return the
backend state explicitly.
-/

set_option maxRecDepth 8000000
set_option maxHeartbeats 4000000

deriving instance DecidableEq for Except

namespace TinyStore

/-! ### Bytes and lowercase hex encoding (the hex crate's hex::encode) -/

def M32 : Nat := 4294967296

def hexDigit (n : Nat) : Char :=
  if n < 10 then Char.ofNat (48 + n) else Char.ofNat (87 + n)

def hexByte (b : Nat) : List Char :=
  [hexDigit (b / 16 % 16), hexDigit (b % 16)]

/-- Lowercase hex encoding of a byte list, as hex::encode does. -/
def hexEncode (bs : List Nat) : String :=
  ⟨(bs.map hexByte).flatten⟩

/-! ### 32-bit word helpers over Nat -/

def add32 (a b : Nat) : Nat := (a + b) % M32

def not32 (a : Nat) : Nat := Nat.xor a 4294967295

def rotl32 (x n : Nat) : Nat :=
  Nat.lor ((x <<< n) % M32) (x >>> (32 - n))

def rotr32 (x n : Nat) : Nat :=
  Nat.lor (x >>> n) ((x <<< (32 - n)) % M32)

/-- Big-endian 8-byte encoding of a length (bit count) as used by SHA-256. -/
def lenBytesBE (n : Nat) : List Nat :=
  [n >>> 56 % 256, n >>> 48 % 256, n >>> 40 % 256, n >>> 32 % 256,
   n >>> 24 % 256, n >>> 16 % 256, n >>> 8 % 256, n % 256]

/-- Little-endian 8-byte encoding of a length (bit count) as used by MD5. -/
def lenBytesLE (n : Nat) : List Nat :=
  [n % 256, n >>> 8 % 256, n >>> 16 % 256, n >>> 24 % 256,
   n >>> 32 % 256, n >>> 40 % 256, n >>> 48 % 256, n >>> 56 % 256]

/-- Merkle-Damgard padding: 0x80, zeros to 56 mod 64, then the 8-byte length. -/
def mdPad (msg : List Nat) (lenEnc : Nat → List Nat) : List Nat :=
  let padLen := (119 - msg.length % 64) % 64
  msg ++ (128 :: List.replicate padLen 0) ++ lenEnc (msg.length * 8)

/-- Split a byte list into 64-byte blocks (input length is a multiple of 64). -/
def blocks64 : Nat → List Nat → List (List Nat)
  | 0, _ => []
  | _, [] => []
  | fuel + 1, l => l.take 64 :: blocks64 fuel (l.drop 64)

def wordLE (a b c d : Nat) : Nat := a + b * 256 + c * 65536 + d * 16777216

def wordBE (a b c d : Nat) : Nat := d + c * 256 + b * 65536 + a * 16777216

def bytesToWordsLE : List Nat → List Nat
  | a :: b :: c :: d :: rest => wordLE a b c d :: bytesToWordsLE rest
  | _ => []

def bytesToWordsBE : List Nat → List Nat
  | a :: b :: c :: d :: rest => wordBE a b c d :: bytesToWordsBE rest
  | _ => []

def wordBytesLE (w : Nat) : List Nat :=
  [w % 256, w >>> 8 % 256, w >>> 16 % 256, w >>> 24 % 256]

def wordBytesBE (w : Nat) : List Nat :=
  [w >>> 24 % 256, w >>> 16 % 256, w >>> 8 % 256, w % 256]

/-! ### MD5 (the md5 crate; RFC 1321), used by calculate_etag -/

def md5K : List Nat :=
  [3614090360, 3905402710, 606105819, 3250441966, 4118548399, 1200080426, 2821735955, 4249261313,
   1770035416, 2336552879, 4294925233, 2304563134, 1804603682, 4254626195, 2792965006, 1236535329,
   4129170786, 3225465664, 643717713, 3921069994, 3593408605, 38016083, 3634488961, 3889429448,
   568446438, 3275163606, 4107603335, 1163531501, 2850285829, 4243563512, 1735328473, 2368359562,
   4294588738, 2272392833, 1839030562, 4259657740, 2763975236, 1272893353, 4139469664, 3200236656,
   681279174, 3936430074, 3572445317, 76029189, 3654602809, 3873151461, 530742520, 3299628645,
   4096336452, 1126891415, 2878612391, 4237533241, 1700485571, 2399980690, 4293915773, 2240044497,
   1873313359, 4264355552, 2734768916, 1309151649, 4149444226, 3174756917, 718787259, 3951481745]

def md5S : List Nat :=
  [7, 12, 17, 22, 7, 12, 17, 22, 7, 12, 17, 22, 7, 12, 17, 22,
   5, 9, 14, 20, 5, 9, 14, 20, 5, 9, 14, 20, 5, 9, 14, 20,
   4, 11, 16, 23, 4, 11, 16, 23, 4, 11, 16, 23, 4, 11, 16, 23,
   6, 10, 15, 21, 6, 10, 15, 21, 6, 10, 15, 21, 6, 10, 15, 21]

def md5Mix (i b c d : Nat) : Nat × Nat :=
  if i < 16 then
    (Nat.lor (Nat.land b c) (Nat.land (not32 b) d), i)
  else if i < 32 then
    (Nat.lor (Nat.land d b) (Nat.land (not32 d) c), (5 * i + 1) % 16)
  else if i < 48 then
    (Nat.xor b (Nat.xor c d), (3 * i + 5) % 16)
  else
    (Nat.xor c (Nat.lor b (not32 d)), (7 * i) % 16)

def md5Step (m : List Nat) (st : Nat × Nat × Nat × Nat) (iks : Nat × Nat × Nat) :
    Nat × Nat × Nat × Nat :=
  let a := st.1
  let b := st.2.1
  let c := st.2.2.1
  let d := st.2.2.2
  let fg := md5Mix iks.1 b c d
  let tmp := add32 a (add32 fg.1 (add32 iks.2.1 (m.getD fg.2 0)))
  (d, add32 b (rotl32 tmp iks.2.2), b, c)

def md5Compress (st : Nat × Nat × Nat × Nat) (block : List Nat) :
    Nat × Nat × Nat × Nat :=
  let m := bytesToWordsLE block
  let r := ((List.range 64).zip (md5K.zip md5S)).foldl (md5Step m) st
  (add32 st.1 r.1, add32 st.2.1 r.2.1, add32 st.2.2.1 r.2.2.1, add32 st.2.2.2 r.2.2.2)

def md5Init : Nat × Nat × Nat × Nat :=
  (1732584193, 4023233417, 2562383102, 271733878)

/-- MD5 digest of a byte list: 16 output bytes. -/
def md5Bytes (msg : List Nat) : List Nat :=
  let padded := mdPad msg lenBytesLE
  let st := (blocks64 (padded.length + 1) padded).foldl md5Compress md5Init
  wordBytesLE st.1 ++ wordBytesLE st.2.1 ++ wordBytesLE st.2.2.1 ++ wordBytesLE st.2.2.2

/-! ### SHA-256 (the sha2 crate; FIPS 180-4), used by the SigV4 code -/

def shaH0 : Nat × Nat × Nat × Nat × Nat × Nat × Nat × Nat :=
  (1779033703, 3144134277, 1013904242, 2773480762,
   1359893119, 2600822924, 528734635, 1541459225)

def shaK : List Nat :=
  [1116352408, 1899447441, 3049323471, 3921009573, 961987163, 1508970993, 2453635748, 2870763221,
   3624381080, 310598401, 607225278, 1426881987, 1925078388, 2162078206, 2614888103, 3248222580,
   3835390401, 4022224774, 264347078, 604807628, 770255983, 1249150122, 1555081692, 1996064986,
   2554220882, 2821834349, 2952996808, 3210313671, 3336571891, 3584528711, 113926993, 338241895,
   666307205, 773529912, 1294757372, 1396182291, 1695183700, 1986661051, 2177026350, 2456956037,
   2730485921, 2820302411, 3259730800, 3345764771, 3516065817, 3600352804, 4094571909, 275423344,
   430227734, 506948616, 659060556, 883997877, 958139571, 1322822218, 1537002063, 1747873779,
   1955562222, 2024104815, 2227730452, 2361852424, 2428436474, 2756734187, 3204031479, 3329325298]

def shaSig0 (x : Nat) : Nat :=
  Nat.xor (rotr32 x 7) (Nat.xor (rotr32 x 18) (x >>> 3))

def shaSig1 (x : Nat) : Nat :=
  Nat.xor (rotr32 x 17) (Nat.xor (rotr32 x 19) (x >>> 10))

/-- Message-schedule extension, carried in reverse order (newest word first),
so that W[t-2], W[t-7], W[t-15], W[t-16] are positions 1, 6, 14, 15. -/
def shaExtendRev : Nat → List Nat → List Nat
  | 0, w => w
  | n + 1, w =>
    let x := add32 (shaSig1 (w.getD 1 0))
      (add32 (w.getD 6 0) (add32 (shaSig0 (w.getD 14 0)) (w.getD 15 0)))
    shaExtendRev n (x :: w)

def shaStep (st : Nat × Nat × Nat × Nat × Nat × Nat × Nat × Nat) (kw : Nat × Nat) :
    Nat × Nat × Nat × Nat × Nat × Nat × Nat × Nat :=
  let a := st.1; let b := st.2.1; let c := st.2.2.1; let d := st.2.2.2.1
  let e := st.2.2.2.2.1; let f := st.2.2.2.2.2.1; let g := st.2.2.2.2.2.2.1
  let h := st.2.2.2.2.2.2.2
  let s1 := Nat.xor (rotr32 e 6) (Nat.xor (rotr32 e 11) (rotr32 e 25))
  let ch := Nat.xor (Nat.land e f) (Nat.land (not32 e) g)
  let t1 := add32 h (add32 s1 (add32 ch (add32 kw.1 kw.2)))
  let s0 := Nat.xor (rotr32 a 2) (Nat.xor (rotr32 a 13) (rotr32 a 22))
  let mj := Nat.xor (Nat.land a b) (Nat.xor (Nat.land a c) (Nat.land b c))
  let t2 := add32 s0 mj
  (add32 t1 t2, a, b, c, add32 d t1, e, f, g)

def shaCompress (st : Nat × Nat × Nat × Nat × Nat × Nat × Nat × Nat) (block : List Nat) :
    Nat × Nat × Nat × Nat × Nat × Nat × Nat × Nat :=
  let w := (shaExtendRev 48 (bytesToWordsBE block).reverse).reverse
  let r := (shaK.zip w).foldl shaStep st
  (add32 st.1 r.1, add32 st.2.1 r.2.1, add32 st.2.2.1 r.2.2.1,
   add32 st.2.2.2.1 r.2.2.2.1, add32 st.2.2.2.2.1 r.2.2.2.2.1,
   add32 st.2.2.2.2.2.1 r.2.2.2.2.2.1, add32 st.2.2.2.2.2.2.1 r.2.2.2.2.2.2.1,
   add32 st.2.2.2.2.2.2.2 r.2.2.2.2.2.2.2)

/-- SHA-256 digest of a byte list: 32 output bytes. -/
def sha256Bytes (msg : List Nat) : List Nat :=
  let padded := mdPad msg lenBytesBE
  let st := (blocks64 (padded.length + 1) padded).foldl shaCompress shaH0
  wordBytesBE st.1 ++ wordBytesBE st.2.1 ++ wordBytesBE st.2.2.1 ++
  wordBytesBE st.2.2.2.1 ++ wordBytesBE st.2.2.2.2.1 ++ wordBytesBE st.2.2.2.2.2.1 ++
  wordBytesBE st.2.2.2.2.2.2.1 ++ wordBytesBE st.2.2.2.2.2.2.2

/-- HMAC-SHA256 (the hmac crate; RFC 2104), total: any key length is accepted,
so the fallible Rust wrapper hmac_sha256 never returns an error. -/
def hmac_sha256 (key msg : List Nat) : List Nat :=
  let k0 := if key.length > 64 then sha256Bytes key else key
  let k := k0 ++ List.replicate (64 - k0.length) 0
  let ipad := k.map (Nat.xor 54)
  let opad := k.map (Nat.xor 92)
  sha256Bytes (opad ++ sha256Bytes (ipad ++ msg))

/-! ### UTF-8 bytes of a string (Rust str::as_bytes) -/

def utf8Char (c : Char) : List Nat :=
  let n := c.toNat
  if n < 128 then [n]
  else if n < 2048 then [192 + n / 64, 128 + n % 64]
  else if n < 65536 then [224 + n / 4096, 128 + n / 64 % 64, 128 + n % 64]
  else [240 + n / 262144, 128 + n / 4096 % 64, 128 + n / 64 % 64, 128 + n % 64]

/-- The UTF-8 byte sequence of a string, as Rust's str::as_bytes / str::len see it. -/
def strBytes (s : String) : List Nat :=
  (s.data.map utf8Char).flatten

/-! ### Association lists, modelling std::collections::HashMap
lookup of the entry for a key, insert-or-replace, remove.  Iteration order
of a HashMap is unspecified in Rust; the list order stands in for it. -/

def lookupA {κ α : Type} [DecidableEq κ] : List (κ × α) → κ → Option α
  | [], _ => none
  | (k, v) :: rest, key => if k = key then some v else lookupA rest key

def insertA {κ α : Type} [DecidableEq κ] : List (κ × α) → κ → α → List (κ × α)
  | [], key, v => [(key, v)]
  | (k, w) :: rest, key, v =>
    if k = key then (key, v) :: rest else (k, w) :: insertA rest key v

def removeA {κ α : Type} [DecidableEq κ] : List (κ × α) → κ → List (κ × α)
  | [], _ => []
  | (k, w) :: rest, key => if k = key then rest else (k, w) :: removeA rest key

/-! ### String primitives, modelled over the character list
Rust str operations are re-implemented on List Char so that every function
reduces in the kernel.  All strings handled by this program are ASCII, where
Rust's byte-wise view and the character view coincide (and UTF-8 byte order
agrees with code-point order, so byte-wise cmp equals character-wise cmp). -/

/-- Rust Ord for str (byte-wise lexicographic, as a strict order). -/
def lexLt : List Char → List Char → Bool
  | [], [] => false
  | [], _ :: _ => true
  | _ :: _, [] => false
  | a :: as, b :: bs => if a < b then true else if b < a then false else lexLt as bs

/-- The reflexive closure a ≤ b, i.e. not b < a. -/
def lexLe (a b : List Char) : Bool := !(lexLt b a)

/-- Rust String::to_lowercase (ASCII range; the program only lowercases
ASCII header names). -/
def toLowerS (s : String) : String := ⟨s.data.map Char.toLower⟩

/-- Rust str::trim (ASCII whitespace; the trimmed values here are ASCII). -/
def trimS (s : String) : String :=
  ⟨(((s.data.dropWhile Char.isWhitespace).reverse).dropWhile Char.isWhitespace).reverse⟩

/-- Rust str::split on a non-empty pattern, fuel-indexed so that it reduces
in the kernel; fuel = length of the subject + 1 always suffices. -/
def splitOnFuel (sep : List Char) : Nat → List Char → List Char → List (List Char)
  | 0, rest, acc => [acc.reverse ++ rest]
  | fuel + 1, l, acc =>
    match l with
    | [] => [acc.reverse]
    | c :: t =>
      if sep.isPrefixOf (c :: t) then
        acc.reverse :: splitOnFuel sep fuel ((c :: t).drop sep.length) []
      else
        splitOnFuel sep fuel t (c :: acc)

def splitOnS (s sep : String) : List String :=
  (splitOnFuel sep.data (s.data.length + 1) s.data []).map (fun l => ⟨l⟩)

def intercalateS (sep : String) (l : List String) : String :=
  ⟨(List.intersperse sep.data (l.map String.data)).flatten⟩

/-! ### AWS Signature Version 4 — crates/auth/src/signature_v4.rs -/

def ALGORITHM : String := "AWS4-HMAC-SHA256"

def SERVICE : String := "s3"

/-- chrono DateTime of Utc, reduced to the calendar/clock fields the
signature code formats. -/
structure Timestamp where
  year : Nat
  month : Nat
  day : Nat
  hour : Nat
  minute : Nat
  second : Nat
deriving DecidableEq

def pad2 (n : Nat) : String :=
  if n < 10 then "0" ++ toString n else toString n

def pad4 (n : Nat) : String :=
  if n < 10 then "000" ++ toString n
  else if n < 100 then "00" ++ toString n
  else if n < 1000 then "0" ++ toString n
  else toString n

/-- chrono format %Y%m%d. -/
def formatDateStamp (t : Timestamp) : String :=
  pad4 t.year ++ pad2 t.month ++ pad2 t.day

/-- chrono format %Y%m%dT%H%M%SZ. -/
def formatAmzDate (t : Timestamp) : String :=
  formatDateStamp t ++ "T" ++ pad2 t.hour ++ pad2 t.minute ++ pad2 t.second ++ "Z"

def digitVal (c : Char) : Nat := c.toNat - 48

/-- chrono NaiveDate::parse_from_str with format %Y%m%d: eight digits,
month and day range-checked.  (chrono also rejects impossible days such as
Feb 30; the dates appearing in this development are all valid, so the exact
day-in-month rule is not needed.) -/
def parseDate8 (s : String) : Option (Nat × Nat × Nat) :=
  let cs := s.data
  if cs.length = 8 && cs.all Char.isDigit then
    let y := digitVal (cs.getD 0 '0') * 1000 + digitVal (cs.getD 1 '0') * 100 +
             digitVal (cs.getD 2 '0') * 10 + digitVal (cs.getD 3 '0')
    let m := digitVal (cs.getD 4 '0') * 10 + digitVal (cs.getD 5 '0')
    let d := digitVal (cs.getD 6 '0') * 10 + digitVal (cs.getD 7 '0')
    if 1 ≤ m && m ≤ 12 && 1 ≤ d && d ≤ 31 then some (y, m, d) else none
  else none

inductive AuthError where
  | MissingCredential
  | InvalidAuthorizationHeader (msg : String)
  | InvalidCredentialFormat (credential : String)
  | InvalidDateFormat (msg : String)
deriving DecidableEq

/-- Rust str::split_once on a single character. -/
def splitAtFirst (sep : Char) : List Char → Option (List Char × List Char)
  | [] => none
  | c :: t =>
    if c = sep then some ([], t)
    else (splitAtFirst sep t).map (fun p => (c :: p.1, p.2))

def split_once (s : String) (sep : Char) : Option (String × String) :=
  (splitAtFirst sep s.data).map (fun p => (⟨p.1⟩, ⟨p.2⟩))

/-- a ≤ b on strings by the Rust byte-wise Ord, as a proposition. -/
def strLe (a b : String) : Prop := lexLe a.data b.data = true

instance : DecidableRel strLe :=
  fun a b => inferInstanceAs (Decidable (lexLe a.data b.data = true))

/-- Pairs ordered by their first (key) component, as Rust sort_by with
a.0.cmp(b.0) does; sorting with this relation is stable. -/
def pairKeyLe (a b : String × String) : Prop := lexLe a.1.data b.1.data = true

instance : DecidableRel pairKeyLe :=
  fun a b => inferInstanceAs (Decidable (lexLe a.1.data b.1.data = true))

namespace SignatureV4

/-- SignatureV4::canonicalize_query_string: split on &, split each parameter
at the first =, sort stably by key, rejoin. -/
def canonicalize_query_string (query_string : String) : String :=
  if query_string.data.isEmpty then "" else
  let params := (splitOnS query_string "&").map (fun p =>
    match split_once p '=' with
    | some kv => kv
    | none => (p, ""))
  let sorted := List.insertionSort pairKeyLe params
  intercalateS "&" (sorted.map (fun kv => kv.1 ++ "=" ++ kv.2))

/-- SignatureV4::canonicalize_headers: lowercase names, trim values, sort by
name, join as name:value lines with a trailing newline. -/
def canonicalize_headers (headers : List (String × String)) : String :=
  let ch := headers.map (fun kv => (toLowerS kv.1, trimS kv.2))
  let sorted := List.insertionSort pairKeyLe ch
  intercalateS "\n" (sorted.map (fun kv => kv.1 ++ ":" ++ kv.2)) ++ "\n"

/-- SignatureV4::get_signed_headers: lowercase names, sorted, joined by ;. -/
def get_signed_headers (headers : List (String × String)) : String :=
  intercalateS ";"
    (List.insertionSort strLe (headers.map (fun kv => toLowerS kv.1)))

def hash_string (input : String) : String :=
  hexEncode (sha256Bytes (strBytes input))

/-- SignatureV4::hash_payload: hex SHA-256 of the payload bytes. -/
def hash_payload (payload : List Nat) : String :=
  hexEncode (sha256Bytes payload)

/-- SignatureV4::create_canonical_request. -/
def create_canonical_request (method uri query_string : String)
    (headers : List (String × String)) (payload_hash : String) : String :=
  let canonical_uri := if uri.data.isEmpty then "/" else uri
  method ++ "\n" ++ canonical_uri ++ "\n" ++
  canonicalize_query_string query_string ++ "\n" ++
  canonicalize_headers headers ++ "\n" ++
  get_signed_headers headers ++ "\n" ++ payload_hash

/-- SignatureV4::calculate_signature_value: the AWS4 key-derivation HMAC
chain.  The Rust function is fallible only through HMAC key setup, which
accepts every key, so it is total here. -/
def calculate_signature_value (secret_key date_stamp region string_to_sign : String) :
    String :=
  let k_secret := strBytes ("AWS4" ++ secret_key)
  let k_date := hmac_sha256 k_secret (strBytes date_stamp)
  let k_region := hmac_sha256 k_date (strBytes region)
  let k_service := hmac_sha256 k_region (strBytes SERVICE)
  let k_signing := hmac_sha256 k_service (strBytes "aws4_request")
  hexEncode (hmac_sha256 k_signing (strBytes string_to_sign))

/-- SignatureV4::calculate_signature: canonical request, string to sign with
the full %Y%m%dT%H%M%SZ timestamp, signature, Authorization header. -/
def calculate_signature (access_key secret_key method uri query_string : String)
    (headers : List (String × String)) (payload_hash : String)
    (timestamp : Timestamp) (region : String) : Except AuthError String :=
  let canonical_request := create_canonical_request method uri query_string headers payload_hash
  let date_stamp := formatDateStamp timestamp
  let amz_date := formatAmzDate timestamp
  let credential_scope := date_stamp ++ "/" ++ region ++ "/" ++ SERVICE ++ "/aws4_request"
  let string_to_sign := ALGORITHM ++ "\n" ++ amz_date ++ "\n" ++
    credential_scope ++ "\n" ++ hash_string canonical_request
  let signature := calculate_signature_value secret_key date_stamp region string_to_sign
  let signed_headers := get_signed_headers headers
  .ok (ALGORITHM ++ " Credential=" ++ access_key ++ "/" ++ credential_scope ++
       ", SignedHeaders=" ++ signed_headers ++ ", Signature=" ++ signature)

/-- Rust str::trim_start_matches(ALGORITHM): remove every leading occurrence
of the pattern; fuel-indexed (the string length bounds the removals). -/
def stripAlgoAux : Nat → List Char → List Char
  | 0, s => s
  | n + 1, s =>
    if ALGORITHM.data.isPrefixOf s then stripAlgoAux n (s.drop ALGORITHM.data.length) else s

/-- SignatureV4::parse_authorization_header: strip the algorithm token and
whitespace, split on comma-space, split each field at the first =. -/
def parse_authorization_header (header : String) : List (String × String) :=
  let h := trimS ⟨stripAlgoAux header.data.length header.data⟩
  (splitOnS h ", ").foldl (fun acc part =>
    match split_once part '=' with
    | some kv => insertA acc (trimS kv.1) (trimS kv.2)
    | none => acc) []

/-- SignatureV4::verify_signature.  Note: the timestamp is reconstructed
from the credential scope's date stamp via and_hms_opt(0, 0, 0), i.e. at
midnight, before being formatted back into the string to sign. -/
def verify_signature (authorization_header method uri query_string : String)
    (headers : List (String × String)) (payload_hash secret_key region : String) :
    Except AuthError Bool :=
  let parts := parse_authorization_header authorization_header
  match lookupA parts "Credential" with
  | none => .error .MissingCredential
  | some credential =>
    match lookupA parts "Signature" with
    | none => .error (.InvalidAuthorizationHeader "Missing Signature")
    | some provided_signature =>
      let credential_parts := splitOnS credential "/"
      if credential_parts.length < 2 then .error (.InvalidCredentialFormat credential)
      else
        let date_stamp := credential_parts[1]?.getD ""
        match parseDate8 date_stamp with
        | none => .error (.InvalidDateFormat date_stamp)
        | some ymd =>
          let timestamp : Timestamp := ⟨ymd.1, ymd.2.1, ymd.2.2, 0, 0, 0⟩
          let canonical_request :=
            create_canonical_request method uri query_string headers payload_hash
          let credential_scope :=
            date_stamp ++ "/" ++ region ++ "/" ++ SERVICE ++ "/aws4_request"
          let amz_date := formatAmzDate timestamp
          let string_to_sign := ALGORITHM ++ "\n" ++ amz_date ++ "\n" ++
            credential_scope ++ "\n" ++ hash_string canonical_request
          let expected_signature :=
            calculate_signature_value secret_key date_stamp region string_to_sign
          .ok (decide (expected_signature = provided_signature))

/-- The round trip of the spec's SigV4 property: sign a request, then verify
the produced Authorization header against the same request components. -/
def sign_then_verify (access_key secret_key method uri query_string : String)
    (headers : List (String × String)) (payload_hash : String)
    (timestamp : Timestamp) (region : String) : Except AuthError Bool :=
  match calculate_signature access_key secret_key method uri query_string
      headers payload_hash timestamp region with
  | .ok auth =>
    verify_signature auth method uri query_string headers payload_hash secret_key region
  | .error e => .error e

end SignatureV4

/-! ### Shared storage types — crates/shared and crates/storage/src/backend.rs
Timestamp fields (last_modified, creation_date) come from Utc::now() and are
not referenced by any claim; they are omitted from the embedded records. -/

inductive StorageError where
  | BucketAlreadyExists (bucket : String)
  | BucketNotFound (bucket : String)
  | BucketNotEmpty (bucket : String)
  | InvalidBucketName (bucket : String)
  | ObjectNotFound (bucket key : String)
  | InvalidObjectKey (key : String)
  | InvalidRange (msg : String)
  | InternalError (msg : String)
deriving DecidableEq

structure ObjectMetadata where
  content_type : Option String
  content_length : Nat
  etag : String
  metadata : List (String × String)
deriving DecidableEq

structure StoredObject where
  data : List Nat
  metadata : ObjectMetadata
deriving DecidableEq

structure ObjectInfo where
  key : String
  etag : String
  size : Nat
  storage_class : String
deriving DecidableEq

structure ListObjectsParams where
  pre : Option String
  delimiter : Option String
  max_keys : Option Nat
  continuation_token : Option String
deriving DecidableEq

/-- backend.rs Range; the source field named end is a Lean keyword and is
called stop here. -/
structure Range where
  start : Nat
  stop : Option Nat
deriving DecidableEq

structure GetObjectResult where
  data : List Nat
  metadata : ObjectMetadata
  range : Option Range
deriving DecidableEq

structure PutObjectResult where
  etag : String
deriving DecidableEq

structure ListObjectsResult where
  objects : List ObjectInfo
  common_prefixes : List String
  is_truncated : Bool
  next_continuation_token : Option String
deriving DecidableEq

structure PartInfo where
  part_number : Nat
  etag : String
  size : Nat
deriving DecidableEq

structure CompletedPart where
  part_number : Nat
  etag : String
deriving DecidableEq

structure CompleteMultipartResult where
  etag : String
deriving DecidableEq

structure MultipartUpload where
  bucket : String
  key : String
  upload_id : String
  metadata : ObjectMetadata
  parts : List (Nat × (List Nat × PartInfo))
deriving DecidableEq

/-- The MemoryBackend state: bucket names (BucketInfo reduced to presence),
per-bucket object maps, and the multipart upload table. -/
structure MemoryState where
  buckets : List String
  objects : List (String × List (String × StoredObject))
  uploads : List (String × MultipartUpload)
deriving DecidableEq

/-! ### MemoryBackend — crates/storage/src/memory.rs -/

namespace MemoryBackend

/-- MemoryBackend::validate_bucket_name: the length test is on the UTF-8
byte length (Rust str::len). -/
def validate_bucket_name (bucket : String) : Except StorageError Unit :=
  if (strBytes bucket).length = 0 || (strBytes bucket).length > 63 then
    .error (.InvalidBucketName bucket)
  else if !(bucket.data.all (fun c => c.isLower || c.isDigit || c == '-')) then
    .error (.InvalidBucketName bucket)
  else .ok ()

/-- MemoryBackend::validate_object_key. -/
def validate_object_key (key : String) : Except StorageError Unit :=
  if (strBytes key).length = 0 || (strBytes key).length > 1024 then
    .error (.InvalidObjectKey key)
  else .ok ()

/-- MemoryBackend::calculate_etag: quoted lowercase hex MD5. -/
def calculate_etag (data : List Nat) : String :=
  "\"" ++ hexEncode (md5Bytes data) ++ "\""

def bucket_exists (st : MemoryState) (bucket : String) : Bool :=
  decide (bucket ∈ st.buckets)

/-- MemoryBackend::create_bucket. -/
def create_bucket (st : MemoryState) (bucket : String) :
    MemoryState × Except StorageError Unit :=
  match validate_bucket_name bucket with
  | .error e => (st, .error e)
  | .ok _ =>
    if bucket ∈ st.buckets then (st, .error (.BucketAlreadyExists bucket))
    else
      ({ st with
          buckets := st.buckets ++ [bucket],
          objects := insertA st.objects bucket [] }, .ok ())

/-- MemoryBackend::put_object.  The source unwraps the bucket's object map
(which exists whenever the bucket exists); getD [] renders the unwrap. -/
def put_object (st : MemoryState) (bucket key : String) (data : List Nat)
    (metadata : ObjectMetadata) : MemoryState × Except StorageError PutObjectResult :=
  match validate_object_key key with
  | .error e => (st, .error e)
  | .ok _ =>
    if bucket_exists st bucket then
      let etag := calculate_etag data
      let md := { metadata with etag := etag, content_length := data.length }
      let bobjs := (lookupA st.objects bucket).getD []
      ({ st with objects := insertA st.objects bucket (insertA bobjs key ⟨data, md⟩) },
       .ok ⟨etag⟩)
    else (st, .error (.BucketNotFound bucket))

/-- MemoryBackend::get_object, including the range handling. -/
def get_object (st : MemoryState) (bucket key : String) (range : Option Range) :
    Except StorageError GetObjectResult :=
  match lookupA st.objects bucket with
  | none => .error (.BucketNotFound bucket)
  | some bobjs =>
    match lookupA bobjs key with
    | none => .error (.ObjectNotFound bucket key)
    | some stored =>
      match range with
      | none => .ok ⟨stored.data, stored.metadata, range⟩
      | some r =>
        let start := r.start
        let e := r.stop.getD stored.data.length
        if start ≥ stored.data.length || e > stored.data.length || start ≥ e then
          .error (.InvalidRange (toString start ++ "-" ++ toString e))
        else
          .ok ⟨(stored.data.drop start).take (e - start), stored.metadata, range⟩

/-- Whether a key passes the prefix filter (key.starts_with). -/
def matchesPre (pre : Option String) (k : String) : Bool :=
  match pre with
  | none => true
  | some p => p.data.isPrefixOf k.data

/-- Rust str::find(pattern): index of the first occurrence of d in s
(Some 0 for the empty pattern, as in Rust). -/
def findSub : List Char → List Char → Option Nat
  | [], d => if d.isEmpty then some 0 else none
  | c :: t, d =>
    if d.isPrefixOf (c :: t) then some 0 else (findSub t d).map (· + 1)

/-- The delimiter handling of list_objects for one key that already passed
the prefix filter: search for the delimiter starting at len(prefix); on a
hit return the common prefix key[..search_start + pos + delimiter.len()]. -/
def delimCut (pre : Option String) (d : String) (k : String) : Option String :=
  let n := (pre.map (fun p => p.data.length)).getD 0
  (findSub (k.data.drop n) d.data).map
    (fun pos => ⟨k.data.take (n + pos + d.data.length)⟩)

/-- HashSet::insert rendered on a list: add if not already present. -/
def insertNew (x : String) (l : List String) : List String :=
  if x ∈ l then l else x :: l

/-- The filtering loop of MemoryBackend::list_objects: partition the bucket
entries into kept objects and collected common prefixes. -/
def filterEntries : List (String × StoredObject) → Option String → Option String →
    List ObjectInfo × List String
  | [], _, _ => ([], [])
  | (k, so) :: rest, pre, delim =>
    let r := filterEntries rest pre delim
    if matchesPre pre k then
      match delim with
      | some d =>
        match delimCut pre d k with
        | some cp => (r.1, insertNew cp r.2)
        | none => (⟨k, so.metadata.etag, so.metadata.content_length, "STANDARD"⟩ :: r.1, r.2)
      | none => (⟨k, so.metadata.etag, so.metadata.content_length, "STANDARD"⟩ :: r.1, r.2)
    else r

/-- Keys ordered by the Rust byte-wise cmp on the key field. -/
def keyLe (a b : ObjectInfo) : Prop := lexLe a.key.data b.key.data = true

instance : DecidableRel keyLe :=
  fun a b => inferInstanceAs (Decidable (lexLe a.key.data b.key.data = true))

/-- MemoryBackend::list_objects: filter, sort by key, truncate to max_keys
(default 1000). -/
def list_objects (st : MemoryState) (bucket : String) (params : ListObjectsParams) :
    Except StorageError ListObjectsResult :=
  match lookupA st.objects bucket with
  | none => .error (.BucketNotFound bucket)
  | some entries =>
    let fc := filterEntries entries params.pre params.delimiter
    let sorted := List.insertionSort keyLe fc.1
    let max_keys := params.max_keys.getD 1000
    .ok ⟨sorted.take max_keys, fc.2, decide (sorted.length > max_keys), none⟩

/-- MemoryBackend::create_multipart_upload.  The freshly generated UUIDv4 is
modelled as the input upload_id. -/
def create_multipart_upload (st : MemoryState) (bucket key : String)
    (metadata : ObjectMetadata) (upload_id : String) :
    MemoryState × Except StorageError String :=
  if bucket_exists st bucket then
    ({ st with uploads := insertA st.uploads upload_id ⟨bucket, key, upload_id, metadata, []⟩ },
     .ok upload_id)
  else (st, .error (.BucketNotFound bucket))

/-- MemoryBackend::upload_part: the etag is computed first; the only failure
is an unknown upload_id; the part number is stored as given. -/
def upload_part (st : MemoryState) (_bucket _key upload_id : String)
    (part_number : Nat) (data : List Nat) :
    MemoryState × Except StorageError PartInfo :=
  let etag := calculate_etag data
  let part_info : PartInfo := ⟨part_number, etag, data.length⟩
  match lookupA st.uploads upload_id with
  | none => (st, .error (.InternalError "Upload not found"))
  | some up =>
    let up2 := { up with parts := insertA up.parts part_number (data, part_info) }
    ({ st with uploads := insertA st.uploads upload_id up2 }, .ok part_info)

/-- The part-concatenation loop of complete_multipart_upload: look each
provided part number up in the stored parts, concatenating the bytes, and
fail with the first missing part number. -/
def collectParts (stored : List (Nat × (List Nat × PartInfo))) :
    List CompletedPart → Except Nat (List Nat)
  | [] => .ok []
  | p :: rest =>
    match lookupA stored p.part_number with
    | none => .error p.part_number
    | some dpi =>
      match collectParts stored rest with
      | .error n => .error n
      | .ok tail => .ok (dpi.1 ++ tail)

/-- MemoryBackend::complete_multipart_upload: the upload entry is removed
first (even if a later step fails); each referenced part must exist; the
combined bytes are written through put_object. -/
def complete_multipart_upload (st : MemoryState) (bucket key upload_id : String)
    (parts : List CompletedPart) :
    MemoryState × Except StorageError CompleteMultipartResult :=
  match lookupA st.uploads upload_id with
  | none => (st, .error (.InternalError "Upload not found"))
  | some up =>
    let st1 := { st with uploads := removeA st.uploads upload_id }
    match collectParts up.parts parts with
    | .error n => (st1, .error (.InternalError ("Part " ++ toString n ++ " not found")))
    | .ok combined =>
      let pr := put_object st1 bucket key combined up.metadata
      (pr.1, pr.2.map (fun r => ⟨r.etag⟩))

/-- MemoryBackend::abort_multipart_upload: bucket and key are ignored; a
missing upload_id is not an error. -/
def abort_multipart_upload (st : MemoryState) (_bucket _key upload_id : String) :
    MemoryState × Except StorageError Unit :=
  ({ st with uploads := removeA st.uploads upload_id }, .ok ())

/-- Parts ordered by part number (sort_by_key). -/
def partLe (a b : PartInfo) : Prop := a.part_number ≤ b.part_number

instance : DecidableRel partLe :=
  fun a b => inferInstanceAs (Decidable (a.part_number ≤ b.part_number))

/-- MemoryBackend::list_parts: bucket and key are ignored; the stored part
infos are returned sorted ascending by part number. -/
def list_parts (st : MemoryState) (_bucket _key upload_id : String) :
    Except StorageError (List PartInfo) :=
  match lookupA st.uploads upload_id with
  | none => .error (.InternalError "Upload not found")
  | some up => .ok (List.insertionSort partLe (up.parts.map (fun p => p.2.2)))

end MemoryBackend

/-! ### FilesystemBackend file-operation order — crates/storage/src/filesystem.rs
For claim C8 the relevant behaviour is which files exist at the intermediate
points of put_object and delete_object.  The state of one object's pair of
paths is two booleans; the operation sequences are taken from the source:
put_object calls fs::write on the final object path directly (no temporary
file, no rename) and then writes the metadata descriptor; delete_object
removes the object file first and the metadata descriptor second. -/

namespace FilesystemBackend

inductive FsOp where
  | writeData
  | writeMeta
  | removeData
  | removeMeta
deriving DecidableEq

structure FsState where
  dataFile : Bool
  metaFile : Bool
deriving DecidableEq

def applyOp (s : FsState) : FsOp → FsState
  | .writeData => { s with dataFile := true }
  | .writeMeta => { s with metaFile := true }
  | .removeData => { s with dataFile := false }
  | .removeMeta => { s with metaFile := false }

/-- All states visited while running a sequence of file operations,
the initial state included. -/
def statesAlong (s : FsState) : List FsOp → List FsState
  | [] => [s]
  | op :: ops => s :: statesAlong (applyOp s op) ops

def runOps (s : FsState) (ops : List FsOp) : FsState :=
  ops.foldl applyOp s

/-- FilesystemBackend::put_object file operations, in source order
(fs::write of the data, then write_metadata). -/
def put_object_ops : List FsOp := [.writeData, .writeMeta]

/-- FilesystemBackend::delete_object file operations, in source order
(remove_file of the data, then remove_file of the metadata). -/
def delete_object_ops : List FsOp := [.removeData, .removeMeta]

/-- The invariant claimed by the spec: a metadata descriptor is present only
if the data file is present. -/
def metaImpliesData (s : FsState) : Prop := s.metaFile = true → s.dataFile = true

instance (s : FsState) : Decidable (metaImpliesData s) :=
  inferInstanceAs (Decidable (_ → _))

end FilesystemBackend

/-- Whether an Except value is Ok (Rust Result::is_ok). -/
def isOkE {ε α : Type} : Except ε α → Bool
  | .ok _ => true
  | .error _ => false

/-! ### Concrete states used to instantiate the theorems -/

/-- ObjectMetadata::default(). -/
def mdDefault : ObjectMetadata := ⟨none, 0, "", []⟩

def emptyState : MemoryState := ⟨[], [], []⟩

/-- A fresh backend holding one bucket b. -/
def exSt : MemoryState := (MemoryBackend.create_bucket emptyState "b").1

/-- Bucket b holding one object k with bytes [48, 49, 50]. -/
def exStObj : MemoryState := ⟨["b"], [("b", [("k", ⟨[48, 49, 50], mdDefault⟩)])], []⟩

/-- Bucket b with a registered multipart upload u holding parts 1 and 2. -/
def exStMp : MemoryState :=
  let s2 := (MemoryBackend.create_multipart_upload exSt "b" "k" mdDefault "u").1
  let s3 := (MemoryBackend.upload_part s2 "b" "k" "u" 1 (strBytes "Part 1 ")).1
  (MemoryBackend.upload_part s3 "b" "k" "u" 2 (strBytes "Part 2")).1

/-- Bucket b holding the spec's listing scenario keys. -/
def exStList : MemoryState :=
  let s1 := (MemoryBackend.put_object exSt "b" "dir/a" [] mdDefault).1
  let s2 := (MemoryBackend.put_object s1 "b" "dir/b" [] mdDefault).1
  let s3 := (MemoryBackend.put_object s2 "b" "dir/sub/c" [] mdDefault).1
  (MemoryBackend.put_object s3 "b" "other" [] mdDefault).1

def exParams : ListObjectsParams := ⟨some "dir/", some "/", none, none⟩

def exEntries : List (String × StoredObject) := (lookupA exStList.objects "b").getD []

def exRes : ListObjectsResult :=
  (MemoryBackend.list_objects exStList "b" exParams).toOption.getD ⟨[], [], false, none⟩

/-! ### Order lemmas for the byte-wise lexicographic comparison -/

theorem lexLt_irrefl (a : List Char) : lexLt a a = false := by
  induction a with
  | nil => rfl
  | cons c t ih => simp [lexLt, lt_irrefl, ih]

theorem lexLt_asymm : ∀ a b : List Char, lexLt a b = true → lexLt b a = false := by
  intro a
  induction a with
  | nil =>
    intro b h
    cases b with
    | nil => simp [lexLt] at h
    | cons d bs => simp [lexLt]
  | cons c as ih =>
    intro b h
    cases b with
    | nil => simp [lexLt] at h
    | cons d bs =>
      simp only [lexLt] at h ⊢
      by_cases h1 : c < d
      · have h2 : ¬ d < c := lt_asymm h1
        simp [h1, h2]
      · by_cases h2 : d < c
        · simp [h1, h2] at h
        · simp only [h1, h2, if_false] at h ⊢
          exact ih bs h

theorem lexLt_trans : ∀ a b c : List Char,
    lexLt a b = true → lexLt b c = true → lexLt a c = true := by
  intro a
  induction a with
  | nil =>
    intro b c hab hbc
    cases c with
    | nil =>
      cases b with
      | nil => simp [lexLt] at hab
      | cons y bs => simp [lexLt] at hbc
    | cons z cs => simp [lexLt]
  | cons x as ih =>
    intro b c hab hbc
    cases b with
    | nil => simp [lexLt] at hab
    | cons y bs =>
      cases c with
      | nil => simp [lexLt] at hbc
      | cons z cs =>
        simp only [lexLt] at hab hbc ⊢
        by_cases hxy : x < y
        · by_cases hyz : y < z
          · simp [lt_trans hxy hyz]
          · by_cases hzy : z < y
            · simp [hyz, hzy] at hbc
            · have hxz : x < z := lt_of_lt_of_le hxy (le_of_not_lt hzy)
              simp [hxz]
        · by_cases hyx : y < x
          · simp [hxy, hyx] at hab
          · have hxey : x = y := le_antisymm (le_of_not_lt hyx) (le_of_not_lt hxy)
            subst hxey
            simp only [hxy, hyx, if_false] at hab
            by_cases hxz : x < z
            · simp [hxz]
            · by_cases hzx : z < x
              · simp [hxz, hzx] at hbc
              · simp only [hxz, hzx, if_false] at hbc ⊢
                exact ih bs cs hab hbc

theorem lexLt_connex : ∀ a b : List Char,
    lexLt a b = false → lexLt b a = false → a = b := by
  intro a
  induction a with
  | nil =>
    intro b h1 _
    cases b with
    | nil => rfl
    | cons d bs => simp [lexLt] at h1
  | cons c as ih =>
    intro b h1 h2
    cases b with
    | nil => simp [lexLt] at h2
    | cons d bs =>
      simp only [lexLt] at h1 h2
      by_cases hcd : c < d
      · simp [hcd] at h1
      · by_cases hdc : d < c
        · simp [hdc] at h2
        · have hedc : c = d := le_antisymm (le_of_not_lt hdc) (le_of_not_lt hcd)
          subst hedc
          simp only [hcd, hdc, if_false] at h1 h2
          rw [ih bs h1 h2]

theorem lexLe_total (a b : List Char) : lexLe a b = true ∨ lexLe b a = true := by
  by_cases h : lexLt b a = true
  · right
    simp [lexLe, lexLt_asymm b a h]
  · left
    simp only [lexLe, Bool.not_eq_true']
    simpa using h

theorem lexLe_trans {a b c : List Char}
    (h1 : lexLe a b = true) (h2 : lexLe b c = true) : lexLe a c = true := by
  simp only [lexLe, Bool.not_eq_true'] at h1 h2 ⊢
  by_cases hca : lexLt c a = true
  · by_cases hab : lexLt a b = true
    · have : lexLt c b = true := lexLt_trans c a b hca hab
      rw [this] at h2
      exact absurd h2 (by simp)
    · have hba : a = b := lexLt_connex a b (by simpa using hab) h1
      subst hba
      rw [hca] at h2
      exact absurd h2 (by simp)
  · simpa using hca

theorem lexLt_of_le_of_ne {a b : List Char}
    (h : lexLe a b = true) (hne : a ≠ b) : lexLt a b = true := by
  by_cases hab : lexLt a b = true
  · exact hab
  · exfalso
    apply hne
    apply lexLt_connex a b (by simpa using hab)
    simpa [lexLe, Bool.not_eq_true'] using h

instance : IsTotal ObjectInfo MemoryBackend.keyLe :=
  ⟨fun a b => lexLe_total a.key.data b.key.data⟩

instance : IsTrans ObjectInfo MemoryBackend.keyLe :=
  ⟨fun _ _ _ h1 h2 => lexLe_trans h1 h2⟩

instance : IsTotal PartInfo MemoryBackend.partLe :=
  ⟨fun a b => Nat.le_total a.part_number b.part_number⟩

instance : IsTrans PartInfo MemoryBackend.partLe :=
  ⟨fun _ _ _ h1 h2 => Nat.le_trans h1 h2⟩

/-! ### Association-list lemmas -/

theorem lookupA_insertA_self {κ α : Type} [DecidableEq κ] (l : List (κ × α)) (k : κ) (v : α) :
    lookupA (insertA l k v) k = some v := by
  induction l with
  | nil => simp [insertA, lookupA]
  | cons p rest ih =>
    by_cases h : p.1 = k
    · simp [insertA, lookupA, h]
    · simp [insertA, lookupA, h, ih]

theorem lookupA_eq_none {κ α : Type} [DecidableEq κ] (l : List (κ × α)) (k : κ)
    (h : k ∉ l.map Prod.fst) : lookupA l k = none := by
  induction l with
  | nil => rfl
  | cons p rest ih =>
    simp only [List.map_cons, List.mem_cons, not_or] at h
    have hne : ¬ p.1 = k := fun he => h.1 he.symm
    simp only [lookupA, if_neg hne]
    exact ih h.2

theorem lookupA_removeA_self {κ α : Type} [DecidableEq κ] (l : List (κ × α)) (k : κ)
    (h : (l.map Prod.fst).Nodup) : lookupA (removeA l k) k = none := by
  induction l with
  | nil => rfl
  | cons p rest ih =>
    simp only [List.map_cons, List.nodup_cons] at h
    by_cases hk : p.1 = k
    · subst hk
      simp only [removeA, if_pos rfl]
      exact lookupA_eq_none rest p.1 h.1
    · simp only [removeA, lookupA, hk, if_neg hk]
      exact ih h.2

/-! ### Lemmas about the list_objects filtering loop -/

namespace MemoryBackend

theorem mem_insertNew (x y : String) (l : List String) :
    x ∈ insertNew y l ↔ x = y ∨ x ∈ l := by
  unfold insertNew
  by_cases h : y ∈ l
  · simp only [if_pos h]
    constructor
    · exact Or.inr
    · rintro (rfl | hx)
      · exact h
      · exact hx
  · simp [if_neg h]

theorem mem_insertNew_of_mem (x y : String) (l : List String) (h : x ∈ l) :
    x ∈ insertNew y l :=
  (mem_insertNew x y l).mpr (Or.inr h)

/-- A key is kept by the filtering loop iff it is stored, passes the prefix
filter, and the delimiter (when given) does not occur after the prefix. -/
theorem mem_filterEntries_key (entries : List (String × StoredObject))
    (pre delim : Option String) (k : String) :
    (∃ oi ∈ (filterEntries entries pre delim).1, oi.key = k) ↔
      ((∃ so, (k, so) ∈ entries) ∧ matchesPre pre k = true ∧
        (∀ d, delim = some d → delimCut pre d k = none)) := by
  induction entries with
  | nil => simp [filterEntries]
  | cons e rest ih =>
    obtain ⟨k', so'⟩ := e
    by_cases hm : matchesPre pre k' = true
    · cases hdelim : delim with
      | none =>
        subst hdelim
        simp only [filterEntries, hm, if_true]
        constructor
        · rintro ⟨oi, hoi, hk⟩
          rcases List.mem_cons.mp hoi with h | h
          · subst h
            simp only at hk
            subst hk
            exact ⟨⟨so', List.mem_cons_self _ _⟩, hm, fun d hd => by simp at hd⟩
          · obtain ⟨⟨so, hso⟩, hmk, _⟩ := ih.mp ⟨oi, h, hk⟩
            exact ⟨⟨so, List.mem_cons_of_mem _ hso⟩, hmk, fun d hd => by simp at hd⟩
        · rintro ⟨⟨so, hso⟩, hmk, _⟩
          rcases List.mem_cons.mp hso with h | h
          · obtain ⟨hk, _⟩ := Prod.mk.injEq .. ▸ h
            subst hk
            exact ⟨_, List.mem_cons_self _ _, rfl⟩
          · obtain ⟨oi, hoi, hk⟩ := ih.mpr ⟨⟨so, h⟩, hmk, fun d hd => by simp at hd⟩
            exact ⟨oi, List.mem_cons_of_mem _ hoi, hk⟩
      | some d =>
        subst hdelim
        cases hcut : delimCut pre d k' with
        | some cp =>
          simp only [filterEntries, hm, if_true, hcut]
          rw [ih]
          constructor
          · rintro ⟨⟨so, hso⟩, hmk, hno⟩
            exact ⟨⟨so, List.mem_cons_of_mem _ hso⟩, hmk, hno⟩
          · rintro ⟨⟨so, hso⟩, hmk, hno⟩
            rcases List.mem_cons.mp hso with h | h
            · obtain ⟨hk, _⟩ := Prod.mk.injEq .. ▸ h
              subst hk
              rw [hno d rfl] at hcut
              cases hcut
            · exact ⟨⟨so, h⟩, hmk, hno⟩
        | none =>
          simp only [filterEntries, hm, if_true, hcut]
          constructor
          · rintro ⟨oi, hoi, hk⟩
            rcases List.mem_cons.mp hoi with h | h
            · subst h
              simp only at hk
              subst hk
              refine ⟨⟨so', List.mem_cons_self _ _⟩, hm, fun d' hd' => ?_⟩
              cases hd'
              exact hcut
            · obtain ⟨⟨so, hso⟩, hmk, hno⟩ := ih.mp ⟨oi, h, hk⟩
              exact ⟨⟨so, List.mem_cons_of_mem _ hso⟩, hmk, hno⟩
          · rintro ⟨⟨so, hso⟩, hmk, hno⟩
            rcases List.mem_cons.mp hso with h | h
            · obtain ⟨hk, _⟩ := Prod.mk.injEq .. ▸ h
              subst hk
              exact ⟨_, List.mem_cons_self _ _, rfl⟩
            · obtain ⟨oi, hoi, hk⟩ := ih.mpr ⟨⟨so, h⟩, hmk, hno⟩
              exact ⟨oi, List.mem_cons_of_mem _ hoi, hk⟩
    · have hm' : matchesPre pre k' = false := by
        cases hv : matchesPre pre k'
        · rfl
        · exact absurd hv hm
      simp only [filterEntries, hm', Bool.false_eq_true, if_false]
      rw [ih]
      constructor
      · rintro ⟨⟨so, hso⟩, hmk, hno⟩
        exact ⟨⟨so, List.mem_cons_of_mem _ hso⟩, hmk, hno⟩
      · rintro ⟨⟨so, hso⟩, hmk, hno⟩
        rcases List.mem_cons.mp hso with h | h
        · obtain ⟨hk, _⟩ := Prod.mk.injEq .. ▸ h
          subst hk
          rw [hmk] at hm'
          cases hm'
        · exact ⟨⟨so, h⟩, hmk, hno⟩

/-- A stored key that passes the prefix filter but contains the delimiter
contributes its common prefix to the collected set. -/
theorem cp_mem_filterEntries (entries : List (String × StoredObject))
    (pre : Option String) (d : String) (k : String) (so : StoredObject) (cp : String)
    (he : (k, so) ∈ entries) (hm : matchesPre pre k = true)
    (hc : delimCut pre d k = some cp) :
    cp ∈ (filterEntries entries pre (some d)).2 := by
  induction entries with
  | nil => cases he
  | cons e rest ih =>
    obtain ⟨k', so'⟩ := e
    rcases List.mem_cons.mp he with h | h
    · obtain ⟨hk, _⟩ := Prod.mk.injEq .. ▸ h
      subst hk
      simp only [filterEntries, hm, if_true, hc]
      exact (mem_insertNew cp cp _).mpr (Or.inl rfl)
    · by_cases hm' : matchesPre pre k' = true
      · cases hcut : delimCut pre d k' with
        | some cp' =>
          simp only [filterEntries, hm', if_true, hcut]
          exact mem_insertNew_of_mem _ _ _ (ih h)
        | none =>
          simp only [filterEntries, hm', if_true, hcut]
          exact ih h
      · have hm'' : matchesPre pre k' = false := by
          cases hv : matchesPre pre k'
          · rfl
          · exact absurd hv hm'
        simp only [filterEntries, hm'', Bool.false_eq_true, if_false]
        exact ih h

/-- The kept keys form a sublist of the stored keys (hence inherit Nodup). -/
theorem filterEntries_keys_sublist (entries : List (String × StoredObject))
    (pre delim : Option String) :
    ((filterEntries entries pre delim).1.map (fun oi => oi.key)).Sublist
      (entries.map Prod.fst) := by
  induction entries with
  | nil => simp [filterEntries]
  | cons e rest ih =>
    obtain ⟨k', so'⟩ := e
    by_cases hm : matchesPre pre k' = true
    · cases hdelim : delim with
      | none =>
        subst hdelim
        simp only [filterEntries, hm, if_true, List.map_cons]
        exact List.Sublist.cons₂ _ ih
      | some d =>
        subst hdelim
        cases hcut : delimCut pre d k' with
        | some cp =>
          simp only [filterEntries, hm, if_true, hcut, List.map_cons]
          exact List.Sublist.cons _ ih
        | none =>
          simp only [filterEntries, hm, if_true, hcut, List.map_cons]
          exact List.Sublist.cons₂ _ ih
    · have hm' : matchesPre pre k' = false := by
        cases hv : matchesPre pre k'
        · rfl
        · exact absurd hv hm
      simp only [filterEntries, hm', Bool.false_eq_true, if_false, List.map_cons]
      exact List.Sublist.cons _ ih

end MemoryBackend

/-! ### Success characterizations of the multipart and put operations -/

theorem isOkE_map {ε α β : Type} (e : Except ε α) (f : α → β) :
    isOkE (e.map f) = isOkE e := by
  cases e <;> rfl

theorem collectParts_ok_iff (stored : List (Nat × (List Nat × PartInfo)))
    (parts : List CompletedPart) :
    isOkE (MemoryBackend.collectParts stored parts) = true ↔
      ∀ p ∈ parts, (lookupA stored p.part_number).isSome = true := by
  induction parts with
  | nil => simp [MemoryBackend.collectParts, isOkE]
  | cons p rest ih =>
    cases hl : lookupA stored p.part_number with
    | none =>
      simp only [MemoryBackend.collectParts, hl, isOkE]
      constructor
      · intro h
        cases h
      · intro h
        have := h p (List.mem_cons_self _ _)
        rw [hl] at this
        cases this
    | some dpi =>
      cases hc : MemoryBackend.collectParts stored rest with
      | error n =>
        simp only [MemoryBackend.collectParts, hl, hc, isOkE]
        rw [hc] at ih
        simp only [isOkE] at ih
        constructor
        · intro h
          cases h
        · intro h
          have : (false = true) := ih.mpr (fun q hq => h q (List.mem_cons_of_mem _ hq))
          cases this
      | ok combined =>
        simp only [MemoryBackend.collectParts, hl, hc, isOkE]
        rw [hc] at ih
        simp only [isOkE] at ih
        constructor
        · intro _ q hq
          rcases List.mem_cons.mp hq with h | h
          · subst h
            rw [hl]
            rfl
          · exact ih.mp trivial q h
        · intro _
          trivial

theorem put_object_ok_iff (st : MemoryState) (b k : String) (d : List Nat)
    (m : ObjectMetadata) :
    isOkE (MemoryBackend.put_object st b k d m).2 = true ↔
      (isOkE (MemoryBackend.validate_object_key k) = true ∧
        MemoryBackend.bucket_exists st b = true) := by
  cases hv : MemoryBackend.validate_object_key k with
  | error e =>
    simp [MemoryBackend.put_object, hv, isOkE]
  | ok u =>
    cases u
    by_cases hb : MemoryBackend.bucket_exists st b = true
    · simp [MemoryBackend.put_object, hv, hb, isOkE]
    · simp [MemoryBackend.put_object, hv, hb, isOkE]

theorem put_object_state_of_error (st : MemoryState) (b k : String) (d : List Nat)
    (m : ObjectMetadata) (h : isOkE (MemoryBackend.put_object st b k d m).2 = false) :
    (MemoryBackend.put_object st b k d m).1 = st := by
  cases hv : MemoryBackend.validate_object_key k with
  | error e => simp [MemoryBackend.put_object, hv]
  | ok u =>
    cases u
    by_cases hb : MemoryBackend.bucket_exists st b = true
    · exfalso
      have hok : isOkE (MemoryBackend.put_object st b k d m).2 = true :=
        (put_object_ok_iff st b k d m).mpr ⟨by simp [hv, isOkE], hb⟩
      rw [hok] at h
      cases h
    · simp [MemoryBackend.put_object, hv, hb]

/-- validate_bucket_name returns either Ok or InvalidBucketName, and the
error case is exactly a length or character-set violation. -/
theorem validate_bucket_name_error_iff (name : String) :
    MemoryBackend.validate_bucket_name name = .error (.InvalidBucketName name) ↔
      ((strBytes name).length = 0 ∨ 63 < (strBytes name).length ∨
        name.data.all (fun c => c.isLower || c.isDigit || c == '-') = false) := by
  unfold MemoryBackend.validate_bucket_name
  split_ifs with h1 h2
  · simp only [Bool.or_eq_true, decide_eq_true_eq] at h1
    refine ⟨fun _ => ?_, fun _ => rfl⟩
    rcases h1 with h | h
    · exact Or.inl h
    · exact Or.inr (Or.inl h)
  · refine ⟨fun _ => ?_, fun _ => rfl⟩
    simp only [Bool.not_eq_true'] at h2
    exact Or.inr (Or.inr h2)
  · simp only [Bool.or_eq_true, decide_eq_true_eq, not_or] at h1
    simp only [Bool.not_eq_true', Bool.not_eq_false] at h2
    constructor
    · intro hc
      exact absurd hc (by simp)
    · rintro (h | h | h)
      · exact absurd h h1.1
      · exact absurd h h1.2
      · rw [h2] at h
        cases h

theorem validate_bucket_name_ok_iff (name : String) :
    MemoryBackend.validate_bucket_name name = .ok () ↔
      ¬ ((strBytes name).length = 0 ∨ 63 < (strBytes name).length ∨
        name.data.all (fun c => c.isLower || c.isDigit || c == '-') = false) := by
  unfold MemoryBackend.validate_bucket_name
  split_ifs with h1 h2
  · simp only [Bool.or_eq_true, decide_eq_true_eq] at h1
    constructor
    · intro hc
      exact absurd hc (by simp)
    · intro hr
      exfalso
      rcases h1 with h | h
      · exact hr (Or.inl h)
      · exact hr (Or.inr (Or.inl h))
  · simp only [Bool.not_eq_true'] at h2
    constructor
    · intro hc
      exact absurd hc (by simp)
    · intro hr
      exact absurd (Or.inr (Or.inr h2)) hr
  · simp only [Bool.or_eq_true, decide_eq_true_eq, not_or] at h1
    simp only [Bool.not_eq_true', Bool.not_eq_false] at h2
    refine ⟨fun _ => ?_, fun _ => rfl⟩
    rintro (h | h | h)
    · exact absurd h h1.1
    · exact absurd h h1.2
    · rw [h2] at h
      cases h

theorem stringDataInj {a b : String} (h : a.data = b.data) : a = b := by
  cases a
  cases b
  exact congrArg String.mk h

/-! ### The claims -/

/-- Claim C2: for every byte string B for which PutObject succeeds, the
returned etag is a double quote, the lowercase hex MD5 of B, and a closing
double quote, and the same etag is stored in the object's metadata (memory
backend; the filesystem backend computes the etag with the identical
calculate_etag). -/
theorem C2_etag_law (st : MemoryState) (bucket key : String) (data : List Nat)
    (metadata : ObjectMetadata) (st' : MemoryState) (r : PutObjectResult)
    (h : MemoryBackend.put_object st bucket key data metadata = (st', .ok r)) :
    r.etag = "\"" ++ hexEncode (md5Bytes data) ++ "\"" ∧
    ∃ bobjs so, lookupA st'.objects bucket = some bobjs ∧
      lookupA bobjs key = some so ∧ so.metadata.etag = r.etag ∧ so.data = data := by
  cases hv : MemoryBackend.validate_object_key key with
  | error e =>
    simp [MemoryBackend.put_object, hv] at h
  | ok u =>
    cases u
    simp only [MemoryBackend.put_object, hv] at h
    by_cases hb : MemoryBackend.bucket_exists st bucket = true
    · rw [if_pos hb, Prod.mk.injEq] at h
      obtain ⟨h1, h2⟩ := h
      injection h2 with h3
      subst h1
      subst h3
      refine ⟨rfl, _, _, lookupA_insertA_self .., lookupA_insertA_self .., rfl, rfl⟩
    · rw [if_neg hb, Prod.mk.injEq] at h
      exact absurd h.2 (by simp)

/-- Claim C2 witness: putting the empty byte string into bucket b stores and
returns the quoted MD5 of the empty input. -/
theorem C2_etag_law_witness :
    ("\"d41d8cd98f00b204e9800998ecf8427e\"" : String) =
      "\"" ++ hexEncode (md5Bytes []) ++ "\"" ∧
    (∃ bobjs so,
      lookupA (⟨["b"], [("b", [("k", ⟨[],
        ⟨none, 0, "\"d41d8cd98f00b204e9800998ecf8427e\"", []⟩⟩)])], []⟩ :
          MemoryState).objects "b" = some bobjs ∧
      lookupA bobjs "k" = some so ∧
      so.metadata.etag = "\"d41d8cd98f00b204e9800998ecf8427e\"" ∧ so.data = []) := by
  have h := C2_etag_law exSt "b" "k" [] mdDefault
    ⟨["b"], [("b", [("k", ⟨[], ⟨none, 0, "\"d41d8cd98f00b204e9800998ecf8427e\"", []⟩⟩)])], []⟩
    ⟨"\"d41d8cd98f00b204e9800998ecf8427e\""⟩ (by decide)
  exact ⟨h.1, h.2⟩

/-- Claim C3: for a stored object with bytes B, a ranged GetObject returns
exactly B[s..e] (e defaulting to the length), and fails with InvalidRange
exactly when s ≥ length, e > length, or s ≥ e. -/
theorem C3_range_semantics (st : MemoryState) (bucket key : String)
    (bobjs : List (String × StoredObject)) (o : StoredObject) (s : Nat)
    (eOpt : Option Nat)
    (hb : lookupA st.objects bucket = some bobjs)
    (ho : lookupA bobjs key = some o) :
    ((∃ msg, MemoryBackend.get_object st bucket key (some ⟨s, eOpt⟩) =
        .error (.InvalidRange msg)) ↔
      (s ≥ o.data.length ∨ eOpt.getD o.data.length > o.data.length ∨
        s ≥ eOpt.getD o.data.length)) ∧
    (s < o.data.length → eOpt.getD o.data.length ≤ o.data.length →
      s < eOpt.getD o.data.length →
      MemoryBackend.get_object st bucket key (some ⟨s, eOpt⟩) =
        .ok ⟨(o.data.drop s).take (eOpt.getD o.data.length - s), o.metadata,
          some ⟨s, eOpt⟩⟩) := by
  simp only [MemoryBackend.get_object, hb, ho]
  by_cases hc : s ≥ o.data.length ∨ eOpt.getD o.data.length > o.data.length ∨
      s ≥ eOpt.getD o.data.length
  · have hcb : ((decide (s ≥ o.data.length) ||
        decide (eOpt.getD o.data.length > o.data.length)) ||
          decide (s ≥ eOpt.getD o.data.length)) = true := by
      simp only [Bool.or_eq_true, decide_eq_true_eq, or_assoc]
      exact hc
    rw [if_pos hcb]
    refine ⟨⟨fun _ => hc, fun _ => ⟨_, rfl⟩⟩, fun h1 h2 h3 => ?_⟩
    exfalso
    rcases hc with h | h | h
    · exact absurd h1 (not_lt.mpr h)
    · exact absurd h2 (not_le.mpr h)
    · exact absurd h3 (not_lt.mpr h)
  · have hcb : ((decide (s ≥ o.data.length) ||
        decide (eOpt.getD o.data.length > o.data.length)) ||
          decide (s ≥ eOpt.getD o.data.length)) = false := by
      simp only [Bool.or_eq_false_iff, decide_eq_false_iff_not]
      push_neg at hc
      exact ⟨⟨not_le.mpr hc.1, not_lt.mpr hc.2.1⟩, not_le.mpr hc.2.2⟩
    rw [if_neg (by simp [hcb])]
    refine ⟨⟨fun ⟨msg, hmsg⟩ => absurd hmsg (by simp), fun h => absurd h hc⟩,
      fun _ _ _ => rfl⟩

/-- Claim C3 witness: bytes [48, 49, 50] with range start 1, end 2 yield
exactly [49]. -/
theorem C3_range_witness :
    MemoryBackend.get_object exStObj "b" "k" (some ⟨1, some 2⟩) =
      .ok ⟨[49], mdDefault, some ⟨1, some 2⟩⟩ := by
  have h := C3_range_semantics exStObj "b" "k" [("k", ⟨[48, 49, 50], mdDefault⟩)]
    ⟨[48, 49, 50], mdDefault⟩ 1 (some 2) (by decide) (by decide)
  exact h.2 (by decide) (by decide) (by decide)

/-- Claim C6 counterexample: part numbers 0 and 10001 are accepted by
UploadPart, contrary to the claimed 1..=10000 bound. -/
theorem C6_upload_part_counterexample :
    isOkE (MemoryBackend.upload_part exStMp "b" "k" "u" 0 (strBytes "x")).2 = true ∧
    isOkE (MemoryBackend.upload_part exStMp "b" "k" "u" 10001 (strBytes "x")).2 = true := by
  decide

/-- Claim C6 amended: UploadPart succeeds exactly when the upload_id is
registered; the part number is not validated at all. -/
theorem C6_upload_part_amended (st : MemoryState) (b k uid : String) (pn : Nat)
    (data : List Nat) :
    isOkE (MemoryBackend.upload_part st b k uid pn data).2 = true ↔
      (lookupA st.uploads uid).isSome = true := by
  cases hl : lookupA st.uploads uid <;>
    simp [MemoryBackend.upload_part, hl, isOkE]

/-- Claim C7 counterexample: the two-octet name ab is accepted by
CreateBucket, contrary to the claimed minimum of 3 octets. -/
theorem C7_bucket_name_counterexample :
    (MemoryBackend.create_bucket emptyState "ab").2 = .ok () ∧
    (strBytes "ab").length < 3 := by
  decide

/-- Claim C7 amended: CreateBucket returns InvalidBucketName exactly when
the name is empty, longer than 63 octets, or contains a character outside
lowercase ASCII letters, digits and hyphens; it succeeds exactly when the
name passes that check and is not already taken. -/
theorem C7_bucket_name_amended (st : MemoryState) (name : String) :
    ((MemoryBackend.create_bucket st name).2 = .error (.InvalidBucketName name) ↔
      ((strBytes name).length = 0 ∨ 63 < (strBytes name).length ∨
        name.data.all (fun c => c.isLower || c.isDigit || c == '-') = false)) ∧
    ((MemoryBackend.create_bucket st name).2 = .ok () ↔
      (¬ ((strBytes name).length = 0 ∨ 63 < (strBytes name).length ∨
        name.data.all (fun c => c.isLower || c.isDigit || c == '-') = false) ∧
        name ∉ st.buckets)) := by
  cases hv : MemoryBackend.validate_bucket_name name with
  | error e =>
    have he : e = .InvalidBucketName name := by
      unfold MemoryBackend.validate_bucket_name at hv
      split_ifs at hv with h1 h2 <;> cases hv <;> rfl
    subst he
    have hr := (validate_bucket_name_error_iff name).mp hv
    constructor
    · simp only [MemoryBackend.create_bucket, hv]
      exact ⟨fun _ => hr, fun _ => by trivial⟩
    · simp only [MemoryBackend.create_bucket, hv]
      constructor
      · intro hc
        exact absurd hc (by simp)
      · rintro ⟨hn, _⟩
        exact absurd hr hn
  | ok u =>
    cases u
    have hok := (validate_bucket_name_ok_iff name).mp hv
    by_cases hmem : name ∈ st.buckets
    · simp only [MemoryBackend.create_bucket, hv, if_pos hmem]
      constructor
      · constructor
        · intro hc
          exact absurd hc (by simp)
        · intro hr
          exact absurd hr hok
      · constructor
        · intro hc
          exact absurd hc (by simp)
        · rintro ⟨_, hn⟩
          exact absurd hmem hn
    · simp only [MemoryBackend.create_bucket, hv, if_neg hmem]
      constructor
      · constructor
        · intro hc
          exact absurd hc (by simp)
        · intro hr
          exact absurd hr hok
      · exact ⟨fun _ => ⟨hok, hmem⟩, fun _ => by trivial⟩

/-- Claim C8 counterexample: starting from an object whose data file and
metadata descriptor both exist, the state reached after the first file
operation of delete_object has the metadata descriptor without the data
file, so a meta-without-data state is reachable (and delete_object removes
the data file first, not the metadata descriptor). -/
theorem C8_fs_counterexample :
    (⟨false, true⟩ : FilesystemBackend.FsState) ∈
      FilesystemBackend.statesAlong ⟨true, true⟩ FilesystemBackend.delete_object_ops ∧
    ¬ FilesystemBackend.metaImpliesData ⟨false, true⟩ := by
  decide

/-- Claim C8 amended: put_object writes the data file in place (fs::write,
with no temporary file and no rename) and then the metadata descriptor, so
put preserves the meta-implies-data invariant; delete_object removes the
data file first and the metadata descriptor second, so a
metadata-without-data state is reachable between its two deletions. -/
theorem C8_fs_amended :
    (∀ s : FilesystemBackend.FsState, FilesystemBackend.metaImpliesData s →
      ∀ t ∈ FilesystemBackend.statesAlong s FilesystemBackend.put_object_ops,
        FilesystemBackend.metaImpliesData t) ∧
    FilesystemBackend.delete_object_ops = [.removeData, .removeMeta] ∧
    (⟨false, true⟩ : FilesystemBackend.FsState) ∈
      FilesystemBackend.statesAlong ⟨true, true⟩ FilesystemBackend.delete_object_ops := by
  refine ⟨?_, rfl, by decide⟩
  intro s hs t ht
  obtain ⟨sd, sm⟩ := s
  simp only [FilesystemBackend.statesAlong, FilesystemBackend.put_object_ops,
    FilesystemBackend.applyOp, List.mem_cons, List.not_mem_nil, or_false] at ht
  rcases ht with rfl | rfl | rfl
  · exact hs
  · intro _
    rfl
  · intro _
    rfl

/-- Claim C8 witness: running the put_object file operations from the empty
state preserves the meta-implies-data invariant at the final state. -/
theorem C8_fs_witness :
    FilesystemBackend.metaImpliesData
      (FilesystemBackend.runOps ⟨false, false⟩ FilesystemBackend.put_object_ops) :=
  C8_fs_amended.1 ⟨false, false⟩ (by decide) _ (by decide)

/-- Claim C10: list_parts and abort_multipart_upload depend only on the
upload_id (the bucket and key arguments are ignored); abort always succeeds
and removes the upload; list_parts returns the stored parts sorted
ascending by part_number.  (The filesystem backend's list_parts reads the
same in-memory table and likewise ignores bucket and key.) -/
theorem C10_multipart_by_upload_id (st : MemoryState) (b k b' k' uid : String)
    (hnodup : (st.uploads.map Prod.fst).Nodup) :
    MemoryBackend.list_parts st b k uid = MemoryBackend.list_parts st b' k' uid ∧
    MemoryBackend.abort_multipart_upload st b k uid =
      MemoryBackend.abort_multipart_upload st b' k' uid ∧
    (MemoryBackend.abort_multipart_upload st b k uid).2 = .ok () ∧
    lookupA (MemoryBackend.abort_multipart_upload st b k uid).1.uploads uid = none ∧
    ∀ up, lookupA st.uploads uid = some up →
      MemoryBackend.list_parts st b k uid =
        .ok (List.insertionSort MemoryBackend.partLe (up.parts.map (fun p => p.2.2))) ∧
      ∀ ps, MemoryBackend.list_parts st b k uid = .ok ps →
        List.Pairwise MemoryBackend.partLe ps ∧
        List.Perm ps (up.parts.map (fun p => p.2.2)) := by
  refine ⟨rfl, rfl, rfl, lookupA_removeA_self _ _ hnodup, ?_⟩
  intro up hup
  constructor
  · simp [MemoryBackend.list_parts, hup]
  · intro ps hps
    simp only [MemoryBackend.list_parts, hup] at hps
    injection hps with hps2
    subst hps2
    exact ⟨List.sorted_insertionSort _ _, List.perm_insertionSort _ _⟩

/-- Claim C10 witness: with upload u registered, list_parts gives the same
answer for mismatched bucket and key, and abort removes the upload. -/
theorem C10_multipart_witness :
    MemoryBackend.list_parts exStMp "b" "k" "u" =
      MemoryBackend.list_parts exStMp "x" "y" "u" ∧
    lookupA (MemoryBackend.abort_multipart_upload exStMp "b" "k" "u").1.uploads "u" =
      none := by
  have h := C10_multipart_by_upload_id exStMp "b" "k" "x" "y" "u" (by decide)
  exact ⟨h.1, h.2.2.2.1⟩

/-- Claim C4: a stored key appears in the (pre-truncation, sorted) objects
of ListObjects exactly when it starts with the prefix and the delimiter does
not occur after the prefix; a stored prefix-matching key containing the
delimiter contributes the substring up to and including the first delimiter
occurrence to common_prefixes; and the sorted object list (of which the
returned objects are the first max_keys, default 1000) is strictly
ascending by key in the byte-wise lexicographic order. -/
theorem C4_list_correctness (st : MemoryState) (bucket : String)
    (params : ListObjectsParams) (entries : List (String × StoredObject))
    (res : ListObjectsResult)
    (hentries : lookupA st.objects bucket = some entries)
    (hnodup : (entries.map Prod.fst).Nodup)
    (hres : MemoryBackend.list_objects st bucket params = .ok res) :
    res.objects =
      (List.insertionSort MemoryBackend.keyLe
        (MemoryBackend.filterEntries entries params.pre params.delimiter).1).take
        (params.max_keys.getD 1000) ∧
    (∀ k : String,
      (∃ oi ∈ List.insertionSort MemoryBackend.keyLe
          (MemoryBackend.filterEntries entries params.pre params.delimiter).1,
        oi.key = k) ↔
        ((∃ so, (k, so) ∈ entries) ∧ MemoryBackend.matchesPre params.pre k = true ∧
          ∀ d, params.delimiter = some d →
            MemoryBackend.delimCut params.pre d k = none)) ∧
    (∀ k so d cp, (k, so) ∈ entries → MemoryBackend.matchesPre params.pre k = true →
      params.delimiter = some d → MemoryBackend.delimCut params.pre d k = some cp →
      cp ∈ res.common_prefixes) ∧
    List.Pairwise (fun a b : ObjectInfo => lexLt a.key.data b.key.data = true)
      (List.insertionSort MemoryBackend.keyLe
        (MemoryBackend.filterEntries entries params.pre params.delimiter).1) := by
  simp only [MemoryBackend.list_objects, hentries] at hres
  injection hres with hres2
  subst hres2
  have hperm := List.perm_insertionSort MemoryBackend.keyLe
    (MemoryBackend.filterEntries entries params.pre params.delimiter).1
  refine ⟨rfl, ?_, ?_, ?_⟩
  · intro k
    rw [← MemoryBackend.mem_filterEntries_key entries params.pre params.delimiter k]
    constructor
    · rintro ⟨oi, hoi, hk⟩
      exact ⟨oi, hperm.mem_iff.mp hoi, hk⟩
    · rintro ⟨oi, hoi, hk⟩
      exact ⟨oi, hperm.mem_iff.mpr hoi, hk⟩
  · intro k so d cp he hm hd hc
    show cp ∈ (MemoryBackend.filterEntries entries params.pre params.delimiter).2
    rw [hd]
    exact MemoryBackend.cp_mem_filterEntries entries params.pre d k so cp he hm hc
  · have hsorted : List.Sorted MemoryBackend.keyLe
        (List.insertionSort MemoryBackend.keyLe
          (MemoryBackend.filterEntries entries params.pre params.delimiter).1) :=
      List.sorted_insertionSort _ _
    have h1 : ((MemoryBackend.filterEntries entries params.pre params.delimiter).1.map
        (fun oi => oi.key)).Nodup :=
      List.Sublist.nodup
        (MemoryBackend.filterEntries_keys_sublist entries params.pre params.delimiter)
        hnodup
    have h2 : ((List.insertionSort MemoryBackend.keyLe
        (MemoryBackend.filterEntries entries params.pre params.delimiter).1).map
        (fun oi => oi.key)).Nodup :=
      ((hperm.map _).nodup_iff).mpr h1
    have h3 : List.Pairwise (fun a b : ObjectInfo => a.key ≠ b.key)
        (List.insertionSort MemoryBackend.keyLe
          (MemoryBackend.filterEntries entries params.pre params.delimiter).1) :=
      List.pairwise_map.mp h2
    exact (hsorted.and h3).imp
      (fun hab => lexLt_of_le_of_ne hab.1 (fun hd => hab.2 (stringDataInj hd)))

/-- Claim C4 witness: the spec's listing scenario — keys dir/a, dir/b,
dir/sub/c, other with prefix dir/ and delimiter / — yields objects
dir/a, dir/b and common prefix dir/sub/. -/
theorem C4_list_witness :
    exRes.objects.map (fun oi => oi.key) = ["dir/a", "dir/b"] ∧
    "dir/sub/" ∈ exRes.common_prefixes := by
  refine ⟨by decide, ?_⟩
  have h := C4_list_correctness exStList "b" exParams exEntries exRes
    (by decide) (by decide) (by decide)
  exact h.2.2.1 "dir/sub/c" ⟨[], ⟨none, 0, "\"d41d8cd98f00b204e9800998ecf8427e\"", []⟩⟩
    "/" "dir/sub/" (by decide) (by decide) (by decide) (by decide)

/-- Claim C5 counterexample: CompleteMultipartUpload succeeds even though
both provided etags differ from the stored ones and the provided part
numbers 2, 1 are not strictly increasing. -/
theorem C5_complete_counterexample :
    isOkE (MemoryBackend.complete_multipart_upload exStMp "b" "k" "u"
      [⟨2, "wrong"⟩, ⟨1, "wrong"⟩]).2 = true ∧
    MemoryBackend.calculate_etag (strBytes "Part 2") ≠ "wrong" ∧ ¬ (2 < 1) := by
  decide

/-- Claim C5 amended: CompleteMultipartUpload succeeds exactly when the
upload_id exists, every referenced part_number exists in the stored parts,
the key is valid and the bucket exists; provided etags and the order of the
part numbers are not checked.  On any error no object is written. -/
theorem C5_complete_amended (st : MemoryState) (bucket key upload_id : String)
    (parts : List CompletedPart) :
    (isOkE (MemoryBackend.complete_multipart_upload st bucket key upload_id parts).2 =
        true ↔
      ∃ up, lookupA st.uploads upload_id = some up ∧
        (∀ p ∈ parts, (lookupA up.parts p.part_number).isSome = true) ∧
        isOkE (MemoryBackend.validate_object_key key) = true ∧
        MemoryBackend.bucket_exists st bucket = true) ∧
    (isOkE (MemoryBackend.complete_multipart_upload st bucket key upload_id parts).2 =
        false →
      (MemoryBackend.complete_multipart_upload st bucket key upload_id parts).1.objects =
        st.objects) := by
  cases hl : lookupA st.uploads upload_id with
  | none =>
    constructor
    · simp [MemoryBackend.complete_multipart_upload, hl, isOkE]
    · intro _
      simp [MemoryBackend.complete_multipart_upload, hl]
  | some up =>
    cases hc : MemoryBackend.collectParts up.parts parts with
    | error n =>
      have hnok : ¬ ∀ p ∈ parts, (lookupA up.parts p.part_number).isSome = true := by
        intro hall
        have hok := (collectParts_ok_iff up.parts parts).mpr hall
        rw [hc] at hok
        simp [isOkE] at hok
      constructor
      · simp only [MemoryBackend.complete_multipart_upload, hl, hc, isOkE]
        constructor
        · intro h
          cases h
        · rintro ⟨up', hup', hall, _, _⟩
          injection hup' with he
          subst he
          exact absurd hall hnok
      · intro _
        simp only [MemoryBackend.complete_multipart_upload, hl, hc]
    | ok combined =>
      constructor
      · simp only [MemoryBackend.complete_multipart_upload, hl, hc, isOkE_map]
        rw [put_object_ok_iff]
        constructor
        · rintro ⟨hk, hb⟩
          exact ⟨up, rfl,
            (collectParts_ok_iff up.parts parts).mp (by rw [hc]; rfl), hk, hb⟩
        · rintro ⟨up', hup', _, hk, hb⟩
          injection hup' with he
          subst he
          exact ⟨hk, hb⟩
      · intro herr
        simp only [MemoryBackend.complete_multipart_upload, hl, hc, isOkE_map] at herr ⊢
        have hst := put_object_state_of_error _ _ _ _ _ herr
        rw [hst]

/-- Claim C5 witness: completing an unknown upload_id leaves the object map
unchanged. -/
theorem C5_complete_witness :
    (MemoryBackend.complete_multipart_upload exStMp "b" "k" "missing" []).1.objects =
      exStMp.objects :=
  (C5_complete_amended exStMp "b" "k" "missing" []).2 (by decide)

/-- Claim C1: evaluation of the SigV4 round trip.  verify_signature
reconstructs the request timestamp from the credential scope's date stamp
at midnight (and_hms_opt(0, 0, 0)), so a header produced by
calculate_signature at 12:00:00 of the same day — with every request
component and the secret unchanged — is rejected (Ok(false)), while the
same request signed at exactly 00:00:00 verifies (Ok(true)).  This refutes
the claimed round trip at a concrete input. -/
theorem C1_sign_verify_eval :
    SignatureV4.sign_then_verify "AK" "secret" "GET" "/" "" [("host", "localhost")]
      "UNSIGNED-PAYLOAD" ⟨2023, 1, 1, 12, 0, 0⟩ "us-east-1" = .ok false ∧
    SignatureV4.sign_then_verify "AK" "secret" "GET" "/" "" [("host", "localhost")]
      "UNSIGNED-PAYLOAD" ⟨2023, 1, 1, 0, 0, 0⟩ "us-east-1" = .ok true := by
  decide

end TinyStore
